import Mathlib

/-!
Verification of the Polly discussion-tree store (PollyDiscussionTree.py /
DiscussionTree/DiscussionTree.py) against its design specification.

Strings from the source are embedded as `List Char` (Python `str` values are
sequences of characters; every operation the source performs on them —
indexing, `rindex`, slicing, concatenation, per-character comparison — is a
list operation).  MongoDB documents holding the per-pseudonym reputation trie
are embedded as a mutually inductive `BVal`/`BDoc` type (a BSON value is a
number, a string, or a document of key/value fields).  Tree documents are
records with the fields the source reads and writes (`_id`, `subtree_id`,
`comments`).  Fallible store calls are driven by explicit failure flags; an
exception the Python code does not catch is a `crash` result, distinct from a
structured error delivered to the callback.
-/

/-- `intToAlpha`'s divide-by-26 loop (lines 104-106 of the source): while the
quotient is nonzero, prepend `chr(97 + n % 26)` and continue with `n / 26`.
The loop runs at most `n` times (the quotient strictly decreases), so running
it on structural fuel `n` is exact; `intToAlphaGo` below supplies that fuel
and `intToAlphaGo_pos`/`intToAlphaGo_zero` recover the loop's recurrence. -/
def intToAlphaAux : Nat → Nat → List Char → List Char
  | 0, _, acc => acc
  | fuel + 1, n, acc =>
    if n = 0 then acc
    else intToAlphaAux fuel (n / 26) (Char.ofNat (97 + n % 26) :: acc)

/-- The source's loop, fuelled adequately. -/
def intToAlphaGo (n : Nat) (acc : List Char) : List Char :=
  intToAlphaAux n n acc

/-- `intToAlpha` (source lines 101-111): `0` maps to `"a"`, a positive number
to its divide-by-26 digit string.  The source raises on negative input; the
embedding takes a `Nat`, which is the domain of every call site modelled. -/
def intToAlpha (n : Nat) : List Char :=
  if n = 0 then ['a'] else intToAlphaGo n []

/-- `alphaToInt`'s left-to-right accumulation loop (source lines 116-119):
`n = n*26 + (ord(char)-97)`, raising on a character outside `'a'`-`'z'`.
`none` models the raised (plain, uncaught-by-`ValueError`) `Exception`. -/
def alphaToIntGo (n : Nat) : List Char → Option Nat
  | [] => some n
  | c :: cs =>
    if c < 'a' ∨ 'z' < c then none
    else alphaToIntGo (n * 26 + (c.toNat - 97)) cs

/-- `alphaToInt` (source lines 113-120). -/
def alphaToInt (s : List Char) : Option Nat :=
  alphaToIntGo 0 s

/-- How many divide-by-26 digits `intToAlphaGo` emits for `n`. -/
def numDigits (n : Nat) : Nat :=
  if h : n = 0 then 0 else numDigits (n / 26) + 1
termination_by n
decreasing_by exact Nat.div_lt_self (Nat.pos_of_ne_zero h) (by decide)

theorem intToAlphaAux_zero (fuel : Nat) (acc : List Char) :
    intToAlphaAux fuel 0 acc = acc := by
  cases fuel <;> simp [intToAlphaAux]

theorem intToAlphaAux_fuel (f1 : Nat) :
    ∀ f2 n acc, n ≤ f1 → n ≤ f2 → intToAlphaAux f1 n acc = intToAlphaAux f2 n acc := by
  induction f1 with
  | zero =>
    intro f2 n acc h1 _
    obtain rfl : n = 0 := Nat.le_zero.mp h1
    rw [intToAlphaAux_zero, intToAlphaAux_zero]
  | succ g ih =>
    intro f2 n acc h1 h2
    by_cases h : n = 0
    · subst h; rw [intToAlphaAux_zero, intToAlphaAux_zero]
    · obtain ⟨h3, rfl⟩ : ∃ k, f2 = k + 1 := by
        cases f2 with
        | zero => exact absurd (Nat.le_zero.mp h2) h
        | succ k => exact ⟨k, rfl⟩
      simp only [intToAlphaAux, if_neg h]
      have hlt : n / 26 < n := Nat.div_lt_self (Nat.pos_of_ne_zero h) (by decide)
      exact ih _ _ _ (by omega) (by omega)

theorem intToAlphaGo_zero (acc : List Char) : intToAlphaGo 0 acc = acc := by
  simp [intToAlphaGo, intToAlphaAux]

theorem intToAlphaGo_pos (n : Nat) (acc : List Char) (h : n ≠ 0) :
    intToAlphaGo n acc = intToAlphaGo (n / 26) (Char.ofNat (97 + n % 26) :: acc) := by
  obtain ⟨g, rfl⟩ : ∃ k, n = k + 1 := by
    cases n with
    | zero => exact absurd rfl h
    | succ k => exact ⟨k, rfl⟩
  show intToAlphaAux (g + 1) (g + 1) acc = _
  simp only [intToAlphaAux, if_neg h]
  exact intToAlphaAux_fuel g _ _ _
    (by have := Nat.div_lt_self (Nat.pos_of_ne_zero h) (show 1 < 26 by decide); omega)
    (Nat.le_refl _)

theorem numDigits_zero : numDigits 0 = 0 := by unfold numDigits; simp

theorem numDigits_pos (n : Nat) (h : n ≠ 0) : numDigits n = numDigits (n / 26) + 1 := by
  conv_lhs => unfold numDigits
  simp [h]

/-- The digit characters `intToAlphaGo` emits are within `'a'`-`'z'` and decode
back to the remainder they were made from. -/
theorem digit_ok (r : Nat) (h : r < 26) :
    (¬(Char.ofNat (97 + r) < 'a' ∨ 'z' < Char.ofNat (97 + r))) ∧
      (Char.ofNat (97 + r)).toNat - 97 = r := by
  interval_cases r <;> exact ⟨by decide, by decide⟩

theorem alphaToIntGo_digit (m r : Nat) (h : r < 26) (cs : List Char) :
    alphaToIntGo m (Char.ofNat (97 + r) :: cs) = alphaToIntGo (m * 26 + r) cs := by
  obtain ⟨hguard, hdec⟩ := digit_ok r h
  simp only [alphaToIntGo, if_neg hguard, hdec]

/-- Decoding the digits `intToAlphaGo n acc` prepends to `acc` shifts the
running accumulator by `26 ^ numDigits n` and adds `n`. -/
theorem alphaToIntGo_intToAlphaGo (n : Nat) :
    ∀ m : Nat, ∀ acc : List Char,
      alphaToIntGo m (intToAlphaGo n acc) =
        alphaToIntGo (m * 26 ^ numDigits n + n) acc := by
  induction n using Nat.strong_induction_on with
  | _ n ih =>
    intro m acc
    by_cases h : n = 0
    · subst h
      simp [intToAlphaGo_zero, numDigits_zero]
    · rw [intToAlphaGo_pos n acc h,
        ih (n / 26) (Nat.div_lt_self (Nat.pos_of_ne_zero h) (by decide)) m _,
        alphaToIntGo_digit _ (n % 26) (Nat.mod_lt n (by decide)) acc,
        numDigits_pos n h]
      congr 1
      have hdm : 26 * (n / 26) + n % 26 = n := Nat.div_add_mod n 26
      calc (m * 26 ^ numDigits (n / 26) + n / 26) * 26 + n % 26
          = m * 26 ^ (numDigits (n / 26) + 1) + (26 * (n / 26) + n % 26) := by ring
        _ = m * 26 ^ (numDigits (n / 26) + 1) + n := by rw [hdm]

/-- Decode of encode is the identity. -/
theorem alphaToInt_intToAlpha (n : Nat) : alphaToInt (intToAlpha n) = some n := by
  by_cases h : n = 0
  · subst h; decide
  · show alphaToIntGo 0 (intToAlpha n) = some n
    rw [intToAlpha, if_neg h, alphaToIntGo_intToAlphaGo n 0 []]
    simp [alphaToIntGo]

/-- `intToAlphaGo` never shrinks its accumulator. -/
theorem intToAlphaGo_length (n : Nat) :
    ∀ acc : List Char, acc.length ≤ (intToAlphaGo n acc).length := by
  induction n using Nat.strong_induction_on with
  | _ n ih =>
    intro acc
    by_cases h : n = 0
    · subst h; rw [intToAlphaGo_zero]
    · rw [intToAlphaGo_pos n acc h]
      calc acc.length ≤ (Char.ofNat (97 + n % 26) :: acc).length := by simp
        _ ≤ _ := ih (n / 26) (Nat.div_lt_self (Nat.pos_of_ne_zero h) (by decide)) _

theorem intToAlpha_ne_nil (n : Nat) : intToAlpha n ≠ [] := by
  by_cases h : n = 0
  · subst h; decide
  · rw [intToAlpha, if_neg h, intToAlphaGo_pos n [] h]
    intro hcon
    have := intToAlphaGo_length (n / 26) (Char.ofNat (97 + n % 26) :: [])
    rw [hcon] at this
    simp at this

/-- A character outside `'a'`-`'z'` anywhere in the label makes `alphaToInt`
raise (source line 118), whatever the accumulator holds at that point. -/
theorem alphaToIntGo_bad (cs : List Char) :
    ∀ m : Nat, (∃ c ∈ cs, c < 'a' ∨ 'z' < c) → alphaToIntGo m cs = none := by
  induction cs with
  | nil => intro m h; simp at h
  | cons c rest ih =>
    intro m h
    by_cases hc : c < 'a' ∨ 'z' < c
    · simp only [alphaToIntGo, if_pos hc]
    · simp only [alphaToIntGo, if_neg hc]
      rcases h with ⟨d, hd, hbad⟩
      rcases List.mem_cons.mp hd with rfl | hd2
      · exact absurd hbad hc
      · exact ih _ ⟨d, hd2, hbad⟩

mutual
/-- A BSON value as the source's reputation documents use them: an integer
count, a string (the `pseudo` field), or a nested document. -/
inductive BVal where
  | num (i : Int)
  | str (s : List Char)
  | doc (d : BDoc)
/-- A BSON document: an ordered list of key/value fields. -/
inductive BDoc where
  | nil
  | cons (k : List Char) (v : BVal) (rest : BDoc)
end

deriving instance DecidableEq for BVal, BDoc

/-- First value stored under key `k`, as MongoDB field lookup. -/
def lookupKey (k : List Char) : BDoc → Option BVal
  | .nil => none
  | .cons k2 v rest => if k2 = k then some v else lookupKey k rest

/-- Split a string on `'.'`, as MongoDB splits a dotted field path. -/
def splitOnDot : List Char → List (List Char)
  | [] => [[]]
  | c :: cs =>
    if c = '.' then [] :: splitOnDot cs
    else
      match splitOnDot cs with
      | [] => [[c]]
      | p :: ps => (c :: p) :: ps

mutual
/-- MongoDB inclusion projection of one dotted field path (the
`fields={subtree_id: True, "_id": False}` of `getReputation`, source line
191): keep only the fields along the path, whole subtree at its end. -/
def projectFields : List (List Char) → BDoc → BDoc
  | [], _ => .nil
  | _ :: _, .nil => .nil
  | k :: rest, .cons k2 v d2 =>
    if k2 = k then
      match rest with
      | [] => .cons k2 v .nil
      | r :: rs =>
        match projectVal (r :: rs) v with
        | some pv => .cons k2 pv .nil
        | none => .nil
    else projectFields (k :: rest) d2
/-- Projection below a matched key: only a document can be descended into. -/
def projectVal : List (List Char) → BVal → Option BVal
  | path, .doc sub => some (.doc (projectFields path sub))
  | _, _ => none
end

mutual
/-- Recursing into a non-`'count'` value: it must be a document; anything
else is the uncaught `TypeError` (`none`). -/
def addTreeVal : BVal → Option Int
  | .doc d => addTreeCount d
  | _ => none
/-- `addTreeCount` (source lines 199-206): sum every value stored under a
`'count'` key, recursing into every other key.  `none` models the uncaught
`TypeError` the Python code would raise on a value of the wrong shape (a
non-number under `'count'`, a non-document under any other key). -/
def addTreeCount : BDoc → Option Int
  | .nil => some 0
  | .cons k v rest =>
    if k = "count".data then
      match v, addTreeCount rest with
      | .num i, some r => some (i + r)
      | _, _ => none
    else
      match addTreeVal v, addTreeCount rest with
      | some s, some r => some (s + r)
      | _, _ => none
end

/-- Does this reputation document belong to `pseudo` (the `{"pseudo": pseudo}`
query selector)? -/
def hasPseudo (p : List Char) (d : BDoc) : Bool :=
  match lookupKey ("pseudo".data) d with
  | some (.str q) => decide (q = p)
  | _ => false

/-- First reputation document matching `{"pseudo": pseudo}`. -/
def findByPseudo (p : List Char) : List BDoc → Option BDoc
  | [] => none
  | d :: rest => if hasPseudo p d then some d else findByPseudo p rest

/-- The body of `getReputation` (source lines 189-208) once the store read
succeeded: project the `subtree_id` field path out of the pseudonym's
document and sum the counts; no document at all means zero.  `none` is the
uncaught aggregation `TypeError` (the summation at line 207 sits outside the
`try`). -/
def getReputationCore (rst : List BDoc) (pseudo sid : List Char) : Option Int :=
  match findByPseudo pseudo rst with
  | none => some 0
  | some d => addTreeCount (projectFields (splitOnDot sid) d)

/-- Outcome of `getReputation` as its caller observes it. -/
inductive RepResult where
  | ok (n : Int)
  | err
  | crash
deriving DecidableEq

/-- `getReputation` (source lines 163-208).  `ffind` injects a failure of the
`find_one` store call, which the source catches and turns into a
`PollyException` (`err`). -/
def getReputation (rst : List BDoc) (pseudo sid : List Char) (ffind : Bool) : RepResult :=
  if ffind then .err
  else
    match getReputationCore rst pseudo sid with
    | some n => .ok n
    | none => .crash

/-- `makeVal rest δ` is the nested structure MongoDB's `$inc` upsert creates
below a missing key for the remaining path `rest`. -/
def makeVal : List (List Char) → Int → BVal
  | [], inc => .num inc
  | k :: rest, inc => .doc (.cons k (makeVal rest inc) .nil)

mutual
/-- MongoDB `$inc` on field `k` followed by path `rest` inside document `d`:
add to an existing number at the end of the path, create missing structure,
fail (`none`) on a non-document in the middle or a non-number at the end. -/
def incAt (k : List Char) (rest : List (List Char)) (inc : Int) : BDoc → Option BDoc
  | .nil => some (.cons k (makeVal rest inc) .nil)
  | .cons k2 v d2 =>
    if k2 = k then
      match incVal rest inc v with
      | some v2 => some (.cons k2 v2 d2)
      | none => none
    else
      match incAt k rest inc d2 with
      | some d2' => some (.cons k2 v d2') | none => none
/-- `$inc` at a matched key: add at an existing number when the path ends
here, descend into an existing document when it continues. -/
def incVal : List (List Char) → Int → BVal → Option BVal
  | [], inc, .num m => some (.num (m + inc))
  | r :: rs, inc, .doc sub =>
    match incAt r rs inc sub with
    | some sub2 => some (.doc sub2)
    | none => none
  | _, _, _ => none
end

/-- MongoDB `$inc` along a dotted field path. -/
def applyInc (path : List (List Char)) (inc : Int) (d : BDoc) : Option BDoc :=
  match path with
  | [] => none
  | k :: rest => incAt k rest inc d

/-- The field path `subtree_id + ".count"` of `incrementReputation`'s `$inc`
(source line 156), as MongoDB splits it. -/
def fieldPathOf (sid : List Char) : List (List Char) :=
  splitOnDot (sid ++ '.' :: "count".data)

/-- `find_and_modify` of `incrementReputation`: find the pseudonym's document
(creating `{"pseudo": pseudo}` on upsert), apply the `$inc`, return the
updated store and the post-update document (`new=True`).  `none` is a store
error (incompatible `$inc`), which the source catches as a `PollyException`. -/
def repUpsertInc (pseudo : List Char) (fp : List (List Char)) (inc : Int) :
    List BDoc → Option (List BDoc × BDoc)
  | [] =>
    match applyInc fp inc (.cons ("pseudo".data) (.str pseudo) .nil) with
    | some nd => some ([nd], nd)
    | none => none
  | d :: rest =>
    if hasPseudo pseudo d then
      match applyInc fp inc d with
      | some d2 => some (d2 :: rest, d2)
      | none => none
    else
      match repUpsertInc pseudo fp inc rest with
      | some (rest2, d2) => some (d :: rest2, d2)
      | none => none

/-- Outcome of `incrementReputation`: the value delivered to the callback on
success is a BSON value (the source's line 161 delivers the whole post-update
document). -/
inductive RepIncResult where
  | ok (v : BVal)
  | err
deriving DecidableEq

/-- `incrementReputation` (source lines 140-161). `ffail` injects a failure of
the `find_and_modify` store call (caught, structured `PollyException`). -/
def incrementReputation (rst : List BDoc) (pseudo sid : List Char) (inc : Int)
    (ffail : Bool) : List BDoc × RepIncResult :=
  if ffail then (rst, .err)
  else
    match repUpsertInc pseudo (fieldPathOf sid) inc rst with
    | some (rst2, d2) => (rst2, .ok (.doc d2))
    | none => (rst, .err)

/-- A comment record as `addCommentToSubtree`/`addRootComment` build it
(source lines 241, 277): child uuid, author pseudonym, text, reputation
snapshot, timestamp. -/
structure Comment where
  child_id : Nat
  pseudo : List Char
  text : List Char
  repute : Int
  time : Nat
deriving DecidableEq

/-- A discussion-tree document: `_id` (uuid), `subtree_id` (dotted path) and
the append-only comment array. -/
structure TreeDoc where
  id : Nat
  subtree_id : List Char
  comments : List Comment
deriving DecidableEq

/-- The two collections the engine touches. -/
structure PState where
  tree : List TreeDoc
  rep : List BDoc
deriving DecidableEq

/-- `parent_subtree_id.rindex(".")` with the slicing around it (source lines
292-294): the part before the last dot and the part after it; `none` is the
`ValueError` the source catches as a badly-formed path. -/
def splitLastDot : List Char → Option (List Char × List Char)
  | [] => none
  | c :: cs =>
    match splitLastDot cs with
    | some (pre, post) => some (c :: pre, post)
    | none => if c = '.' then some ([], cs) else none

/-- `find_and_modify` matching `{"_id": u, "subtree_id": sid}` with
`$push`: update the first matching document and return the updated list
together with the updated document (`new=True`). -/
def replaceFirst (u : Nat) (sid : List Char) (c : Comment) :
    List TreeDoc → Option (List TreeDoc × TreeDoc)
  | [] => none
  | d :: rest =>
    if d.id = u ∧ d.subtree_id = sid then
      some ({ d with comments := d.comments ++ [c] } :: rest,
        { d with comments := d.comments ++ [c] })
    else
      match replaceFirst u sid c rest with
      | some (rest2, d2) => some (d :: rest2, d2)
      | none => none

/-- The upsert behind the `$push` (source lines 279-282): update a matching
document, otherwise insert a fresh one built from the query's equality fields
(`_id := u`, `subtree_id := sid`) — unless another document already holds the
`_id`, in which case the insert violates the unique `_id` index and the store
raises (`none`, caught by the source as a `PollyException`). -/
def pushOrUpsert (u : Nat) (sid : List Char) (c : Comment) (ts : List TreeDoc) :
    Option (List TreeDoc × TreeDoc) :=
  match replaceFirst u sid c ts with
  | some r => some r
  | none =>
    if ts.any (fun d => decide (d.id = u)) then none
    else some (ts ++ [⟨u, sid, [c]⟩], ⟨u, sid, [c]⟩)

/-- `find_one {"subtree_id": sid}` over the collection: first match. -/
def findBySid (sid : List Char) : List TreeDoc → Option TreeDoc
  | [] => none
  | d :: rest => if d.subtree_id = sid then some d else findBySid sid rest

/-- `remove {"_id": i}` (source line 315): drop every document with this id. -/
def removeById (i : Nat) (ts : List TreeDoc) : List TreeDoc :=
  ts.filter (fun d => d.id ≠ i)

/-- Which store calls are scheduled to raise during one operation: the
reputation `find_one`, the `$push` `find_and_modify`, the validation
`find_one`, the rollback `remove`. -/
structure StoreFailures where
  repFind : Bool
  push : Bool
  valFind : Bool
  remove : Bool

/-- A run in which every store call succeeds. -/
def noFailures : StoreFailures := ⟨false, false, false, false⟩

/-- The structured errors (`PollyException` instances handed to the callback)
`addCommentToSubtree` can produce. -/
inductive PErr where
  | repFindFailed
  | pushFailed
  | badlyFormedPath
  | valFindFailed
  | orphaned
  | forgery
deriving DecidableEq

/-- Exceptions the source never catches, so the callback never fires:
`alphaToInt`'s plain `Exception` (not a `ValueError`, source line 295 catches
only those), the unguarded grandparent index access (source line 307), the
unguarded rollback `remove` (source line 315), and an aggregation type error
inside `getReputation` (source line 207, outside its `try`). -/
inductive CrashKind where
  | invalidLabel
  | indexOutOfRange
  | removeFailed
  | repAggregate
deriving DecidableEq

/-- What a tree-write operation delivers: a callback success value (child
path and comment), a callback `PollyException`, or an uncaught crash. -/
inductive TreeResult where
  | ok (childPath : List Char) (c : Comment)
  | err (e : PErr)
  | crash (k : CrashKind)
deriving DecidableEq

/-- The store calls an operation issued, in order. -/
inductive StoreOp where
  | repFind
  | push
  | valFind
  | remove
deriving DecidableEq

/-- Rollback of a just-created node (source lines 311-317): remove it by its
`_id` and deliver the validation error — unless the `remove` itself raises,
which nothing catches: the operation dies with the node still in place and
the original error lost. -/
def rollbackStep (st1 : PState) (d2 : TreeDoc) (e : PErr) (f : StoreFailures)
    (tr : List StoreOp) : PState × TreeResult × List StoreOp :=
  if f.remove then (st1, .crash .removeFailed, tr ++ [.remove])
  else (⟨removeById d2.id st1.tree, st1.rep⟩, .err e, tr ++ [.remove])

/-- Ancestry validation of a just-created node (source lines 289-317): split
the parent path at its last dot (`ValueError` ⇒ badly-formed, rolled back),
decode the final label (`alphaToInt`'s plain `Exception` is uncaught ⇒
crash), fetch the grandparent (raise ⇒ structured store error, rolled back;
absent ⇒ orphaned, rolled back), then compare `comments[idx].child_id` with
the presented uuid (index out of range is uncaught ⇒ crash; mismatch ⇒
forgery, rolled back). -/
def validateNewNode (st1 : PState) (d2 : TreeDoc) (u : Nat) (psid : List Char)
    (comment : Comment) (f : StoreFailures) : PState × TreeResult × List StoreOp :=
  match splitLastDot psid with
  | none => rollbackStep st1 d2 .badlyFormedPath f [.repFind, .push]
  | some (gpPath, label) =>
    match alphaToInt label with
    | none => (st1, .crash .invalidLabel, [.repFind, .push])
    | some idx =>
      if f.valFind then rollbackStep st1 d2 .valFindFailed f [.repFind, .push, .valFind]
      else
        match findBySid gpPath st1.tree with
        | none => rollbackStep st1 d2 .orphaned f [.repFind, .push, .valFind]
        | some gp =>
          match gp.comments.get? idx with
          | none => (st1, .crash .indexOutOfRange, [.repFind, .push, .valFind])
          | some pc =>
            if pc.child_id = u then
              (st1, .ok (psid ++ '.' :: intToAlpha (d2.comments.length - 1)) comment,
                [.repFind, .push, .valFind])
            else rollbackStep st1 d2 .forgery f [.repFind, .push, .valFind]

/-- `addCommentToSubtree` (source lines 254-318): snapshot the author's
reputation, build the comment, atomically push-or-upsert it onto the node
matching `(_id, subtree_id)`, validate ancestry if and only if the node now
holds exactly one comment, and answer with
`parent_subtree_id + "." + intToAlpha(len(comments) - 1)`.  `ncid` is the
fresh `uuid4` for the comment, `now` the server timestamp. -/
def addCommentToSubtree (st : PState) (u : Nat) (psid text pseudo : List Char)
    (ncid now : Nat) (f : StoreFailures) : PState × TreeResult × List StoreOp :=
  if f.repFind then (st, .err .repFindFailed, [.repFind])
  else
    match getReputationCore st.rep pseudo psid with
    | none => (st, .crash .repAggregate, [.repFind])
    | some reputation =>
      if f.push then (st, .err .pushFailed, [.repFind, .push])
      else
        match pushOrUpsert u psid ⟨ncid, pseudo, text, reputation, now⟩ st.tree with
        | none => (st, .err .pushFailed, [.repFind, .push])
        | some (ts2, d2) =>
          if d2.comments.length = 1 then
            validateNewNode ⟨ts2, st.rep⟩ d2 u psid ⟨ncid, pseudo, text, reputation, now⟩ f
          else
            (⟨ts2, st.rep⟩,
              .ok (psid ++ '.' :: intToAlpha (d2.comments.length - 1))
                ⟨ncid, pseudo, text, reputation, now⟩,
              [.repFind, .push])

/-- `find_and_modify` of `addRootComment` (source lines 243-246): match by
`{"subtree_id": 'a'}` alone, push, upsert with a store-generated `_id`
(`docId`). -/
def rootPush (c : Comment) (docId : Nat) : List TreeDoc → List TreeDoc × TreeDoc
  | [] => ([⟨docId, ['a'], [c]⟩], ⟨docId, ['a'], [c]⟩)
  | d :: rest =>
    if d.subtree_id = ['a'] then
      ({ d with comments := d.comments ++ [c] } :: rest,
        { d with comments := d.comments ++ [c] })
    else
      match rootPush c docId rest with
      | (rest2, d2) => (d :: rest2, d2)

/-- `addRootComment` (source lines 229-251): push a `pseudo='root'`,
`repute=0` comment onto the designated root node `'a'` (creating it on first
use) and answer `'a.' + intToAlpha(len(comments) - 1)`; no ancestry
validation of any kind. -/
def addRootComment (st : PState) (text : List Char) (ncid docId now : Nat)
    (fpush : Bool) : PState × TreeResult :=
  if fpush then (st, .err .pushFailed)
  else
    match rootPush ⟨ncid, "root".data, text, 0, now⟩ docId st.tree with
    | (ts2, d2) =>
      (⟨ts2, st.rep⟩,
        .ok ('a' :: '.' :: intToAlpha (d2.comments.length - 1))
          ⟨ncid, "root".data, text, 0, now⟩)

/-- Did the operation deliver a structured error (a `PollyException`) to its
callback? -/
def deliveredErr : TreeResult → Bool
  | .err _ => true
  | _ => false

/-- Did the operation die with an uncaught exception? -/
def isCrash : TreeResult → Bool
  | .crash _ => true
  | _ => false

/-- Is some document stored at this path? -/
def hasNodeAt (sid : List Char) (ts : List TreeDoc) : Bool :=
  ts.any (fun d => decide (d.subtree_id = sid))

/-- First document matching `{"_id": u, "subtree_id": sid}` (what the
`$push`'s `find_and_modify` selects). -/
def findMatchDoc (u : Nat) (sid : List Char) : List TreeDoc → Option TreeDoc
  | [] => none
  | d :: rest => if d.id = u ∧ d.subtree_id = sid then some d else findMatchDoc u sid rest

theorem replaceFirst_none (u : Nat) (sid : List Char) (c : Comment) :
    ∀ ts : List TreeDoc, (∀ d ∈ ts, d.id ≠ u) → replaceFirst u sid c ts = none := by
  intro ts
  induction ts with
  | nil => intro _; rfl
  | cons d rest ih =>
    intro h
    have hd : d.id ≠ u := h d (List.mem_cons_self d rest)
    have hcond : ¬(d.id = u ∧ d.subtree_id = sid) := fun hc => hd hc.1
    simp only [replaceFirst, if_neg hcond,
      ih (fun x hx => h x (List.mem_cons_of_mem d hx))]

theorem any_id_false (u : Nat) :
    ∀ ts : List TreeDoc, (∀ d ∈ ts, d.id ≠ u) →
      ts.any (fun d => decide (d.id = u)) = false := by
  intro ts h
  simp only [List.any_eq_false, decide_eq_true_eq]
  exact h

theorem pushOrUpsert_new (u : Nat) (sid : List Char) (c : Comment)
    (ts : List TreeDoc) (h : ∀ d ∈ ts, d.id ≠ u) :
    pushOrUpsert u sid c ts = some (ts ++ [⟨u, sid, [c]⟩], ⟨u, sid, [c]⟩) := by
  simp only [pushOrUpsert, replaceFirst_none u sid c ts h, any_id_false u ts h,
    Bool.false_eq_true, if_false]

theorem splitLastDot_append :
    ∀ s pre post : List Char, splitLastDot s = some (pre, post) →
      s = pre ++ '.' :: post := by
  intro s
  induction s with
  | nil => intro pre post h; simp [splitLastDot] at h
  | cons c cs ih =>
    intro pre post h
    simp only [splitLastDot] at h
    cases hs : splitLastDot cs with
    | some pq =>
      obtain ⟨p, q⟩ := pq
      rw [hs] at h
      simp only [Option.some.injEq, Prod.mk.injEq] at h
      obtain ⟨h1, h2⟩ := h
      subst h1
      subst h2
      simp [ih p q hs]
    | none =>
      rw [hs] at h
      by_cases hc : c = '.'
      · simp only [if_pos hc, Option.some.injEq, Prod.mk.injEq] at h
        obtain ⟨h1, h2⟩ := h
        subst h1
        subst h2
        simp [hc]
      · simp [if_neg hc] at h

theorem splitLastDot_proper (s pre post : List Char)
    (h : splitLastDot s = some (pre, post)) : s ≠ pre := by
  have := splitLastDot_append s pre post h
  intro hcon
  rw [hcon] at this
  have : pre.length = (pre ++ '.' :: post).length := by rw [← this]
  simp at this

theorem findBySid_append_ne (sid : List Char) (nd : TreeDoc)
    (hne : nd.subtree_id ≠ sid) :
    ∀ ts : List TreeDoc, findBySid sid (ts ++ [nd]) = findBySid sid ts := by
  intro ts
  induction ts with
  | nil => simp [findBySid, hne]
  | cons d rest ih =>
    by_cases hd : d.subtree_id = sid
    · simp [findBySid, hd]
    · simp [findBySid, hd, ih]

theorem removeById_append (u : Nat) (nd : TreeDoc) (hid : nd.id = u) :
    ∀ ts : List TreeDoc, (∀ d ∈ ts, d.id ≠ u) → removeById u (ts ++ [nd]) = ts := by
  intro ts h
  simp only [removeById, List.filter_append]
  rw [List.filter_eq_self.mpr, List.filter_eq_nil_iff.mpr, List.append_nil]
  · intro d hd
    simp only [List.mem_singleton] at hd
    subst hd
    simp [hid]
  · intro d hd
    simp [h d hd]

theorem findMatchDoc_replaceFirst (u : Nat) (sid : List Char) (c : Comment) :
    ∀ ts : List TreeDoc, ∀ d0 : TreeDoc, findMatchDoc u sid ts = some d0 →
      ∃ ts2, replaceFirst u sid c ts =
        some (ts2, { d0 with comments := d0.comments ++ [c] }) := by
  intro ts
  induction ts with
  | nil => intro d0 h; simp [findMatchDoc] at h
  | cons d rest ih =>
    intro d0 h
    by_cases hd : d.id = u ∧ d.subtree_id = sid
    · simp only [findMatchDoc, if_pos hd, Option.some.injEq] at h
      subst h
      exact ⟨{ d with comments := d.comments ++ [c] } :: rest,
        by simp only [replaceFirst, if_pos hd]⟩
    · simp only [findMatchDoc, if_neg hd] at h
      obtain ⟨ts2, hts2⟩ := ih d0 h
      exact ⟨d :: ts2, by simp only [replaceFirst, if_neg hd, hts2]⟩

/-- The numeric value stored at a (nonempty) dotted field path: follow
documents through every label, read a number at the last one. -/
def numAtPath : List (List Char) → BDoc → Option Int
  | [], _ => none
  | [k], d =>
    match lookupKey k d with
    | some (.num m) => some m
    | _ => none
  | k :: r :: rs, d =>
    match lookupKey k d with
    | some (.doc sub) => numAtPath (r :: rs) sub
    | _ => none

theorem numAtPath_cons_ne (k k2 : List Char) (rest : List (List Char)) (v : BVal)
    (d : BDoc) (h : k2 ≠ k) :
    numAtPath (k :: rest) (.cons k2 v d) = numAtPath (k :: rest) d := by
  cases rest <;> simp only [numAtPath, lookupKey, if_neg h]

theorem numAtPath_nil_doc (k : List Char) (rest : List (List Char)) :
    numAtPath (k :: rest) BDoc.nil = none := by
  cases rest <;> rfl

theorem numAtPath_makeVal (inc : Int) :
    ∀ (rest : List (List Char)) (k : List Char),
      numAtPath (k :: rest) (.cons k (makeVal rest inc) .nil) = some inc := by
  intro rest
  induction rest with
  | nil => intro k; simp [numAtPath, lookupKey, makeVal]
  | cons r rs ih =>
    intro k
    simp only [numAtPath, lookupKey, if_pos rfl, if_true, makeVal]
    exact ih r

/-- A successful `$inc` leaves, at exactly the incremented path, the old
number there (zero when the path was absent) plus the increment. -/
theorem incAt_numAtPath (N : Nat) :
    ∀ d : BDoc, sizeOf d < N →
      ∀ (k : List Char) (rest : List (List Char)) (inc : Int) (d2 : BDoc),
        incAt k rest inc d = some d2 →
        numAtPath (k :: rest) d2 =
          some ((numAtPath (k :: rest) d).getD 0 + inc) := by
  induction N with
  | zero => intro d h; exact absurd h (Nat.not_lt_zero _)
  | succ n ih =>
    intro d hd k rest inc d2 heq
    cases d with
    | nil =>
      simp only [incAt, Option.some.injEq] at heq
      subst heq
      rw [numAtPath_makeVal, numAtPath_nil_doc]
      simp
    | cons k2 v dtail =>
      by_cases hk : k2 = k
      · subst hk
        simp only [incAt, if_pos rfl, if_true] at heq
        cases hv : incVal rest inc v with
        | none => rw [hv] at heq; simp at heq
        | some v2 =>
          rw [hv] at heq
          simp only [Option.some.injEq] at heq
          subst heq
          cases rest with
          | nil =>
            cases v with
            | num m =>
              simp only [incVal, Option.some.injEq] at hv
              subst hv
              simp [numAtPath, lookupKey]
            | str s => simp [incVal] at hv
            | doc dd => simp [incVal] at hv
          | cons r rs =>
            cases v with
            | num m => simp [incVal] at hv
            | str s => simp [incVal] at hv
            | doc sub =>
              simp only [incVal] at hv
              cases hs : incAt r rs inc sub with
              | none => rw [hs] at hv; simp at hv
              | some sub2 =>
                rw [hs] at hv
                simp only [Option.some.injEq] at hv
                subst hv
                simp only [numAtPath, lookupKey, if_pos rfl, if_true]
                have hsz : sizeOf sub < n := by
                  simp only [BDoc.cons.sizeOf_spec, BVal.doc.sizeOf_spec] at hd
                  omega
                exact ih sub hsz r rs inc sub2 hs
      · simp only [incAt, if_neg hk] at heq
        cases ht : incAt k rest inc dtail with
        | none => rw [ht] at heq; simp at heq
        | some dt2 =>
          rw [ht] at heq
          simp only [Option.some.injEq] at heq
          subst heq
          rw [numAtPath_cons_ne k k2 rest v dt2 hk,
            numAtPath_cons_ne k k2 rest v dtail hk]
          have hsz : sizeOf dtail < n := by
            simp only [BDoc.cons.sizeOf_spec] at hd
            omega
          exact ih dtail hsz k rest inc dt2 ht

/-- The document the `$inc` of `incrementReputation` is applied to: the
pseudonym's stored record, or on upsert the fresh `{"pseudo": pseudo}`
document built from the query's equality fields. -/
def baseDocOf (pseudo : List Char) (rst : List BDoc) : BDoc :=
  match findByPseudo pseudo rst with
  | some d => d
  | none => .cons ("pseudo".data) (.str pseudo) .nil

theorem repUpsertInc_applyInc :
    ∀ (rst : List BDoc) (pseudo : List Char) (fp : List (List Char)) (inc : Int)
      (rst2 : List BDoc) (d2 : BDoc),
      repUpsertInc pseudo fp inc rst = some (rst2, d2) →
      applyInc fp inc (baseDocOf pseudo rst) = some d2 := by
  intro rst
  induction rst with
  | nil =>
    intro pseudo fp inc rst2 d2 h
    simp only [repUpsertInc] at h
    cases ha : applyInc fp inc (.cons ("pseudo".data) (.str pseudo) .nil) with
    | none => rw [ha] at h; simp at h
    | some nd =>
      rw [ha] at h
      simp only [Option.some.injEq, Prod.mk.injEq] at h
      rw [baseDocOf]
      simp only [findByPseudo]
      rw [ha, h.2]
  | cons d rest ih =>
    intro pseudo fp inc rst2 d2 h
    by_cases hp : hasPseudo pseudo d
    · simp only [repUpsertInc, if_pos hp] at h
      cases ha : applyInc fp inc d with
      | none => rw [ha] at h; simp at h
      | some nd =>
        rw [ha] at h
        simp only [Option.some.injEq, Prod.mk.injEq] at h
        rw [baseDocOf]
        simp only [findByPseudo, if_pos hp]
        rw [ha, h.2]
    · simp only [repUpsertInc, if_neg hp] at h
      cases hr : repUpsertInc pseudo fp inc rest with
      | none => rw [hr] at h; simp at h
      | some pair =>
        obtain ⟨rest2, dd⟩ := pair
        rw [hr] at h
        simp only [Option.some.injEq, Prod.mk.injEq] at h
        have := ih pseudo fp inc rest2 dd hr
        rw [baseDocOf] at this ⊢
        simp only [findByPseudo, if_neg hp]
        rw [h.2] at this
        exact this

/-- Claim C3: for every non-negative integer `n`, decoding the label produced
by encoding `n` gives back `n`: `alphaToInt(intToAlpha(n)) == n`. -/
theorem claim_C3 (n : Nat) : alphaToInt (intToAlpha n) = some n :=
  alphaToInt_intToAlpha n

/-- Claim C4: `intToAlpha` maps `0` to `"a"`, `25` to `"z"`, and `26` to
`"ba"` — the two-letter label the divide-by-26 scheme itself places right
after `"z"` (`divmod(26,26) = (1,0)` prepends `'a'`, then `'b'`), not the
`"aa"` standard bijective base-26 would give. -/
theorem claim_C4 :
    intToAlpha 0 = "a".data ∧ intToAlpha 25 = "z".data ∧ intToAlpha 26 = "ba".data := by
  refine ⟨by decide, by decide, by decide⟩

/-- Claim C10: `alphaToInt` accepts the empty string and returns `0` without
raising; `intToAlpha` never produces the empty label, so decode accepts
labels encode never produces; and `intToAlpha (alphaToInt l) = l` fails for
the accepted labels `l = ""` (re-encoded as `"a"`) and `l = "ab"` (decoded to
`1`, re-encoded as `"b"`), decode collapsing non-canonical spellings. -/
theorem claim_C10 :
    alphaToInt ([] : List Char) = some 0 ∧
      (∀ n : Nat, intToAlpha n ≠ []) ∧
      intToAlpha 0 = "a".data ∧
      alphaToInt ("ab".data) = some 1 ∧
      intToAlpha 1 = "b".data := by
  refine ⟨by decide, intToAlpha_ne_nil, by decide, by decide, by decide⟩

/-- The reputation record of the C5 scenario: pseudonym `"p"` holding count 4
at label `a` and count 2 at nested label `a.b` (the document layout
`incrementReputation`'s `$inc` produces: the trie lives beside the `pseudo`
field, labels as top-level keys). -/
def repRecordSample : BDoc :=
  .cons ("pseudo".data) (.str "p".data)
    (.cons ("a".data)
      (.doc (.cons ("count".data) (.num 4)
        (.cons ("b".data) (.doc (.cons ("count".data) (.num 2) .nil)) .nil)))
      .nil)

/-- Claim C5: over a record with counts 4 at path `a` and 2 at path `a.b`,
`getReputation` aggregates 6 for path `a` and 2 for path `a.b`; for a
pseudonym with no stored record it returns 0 whatever the path. -/
theorem claim_C5 :
    getReputation [repRecordSample] ("p".data) ("a".data) false = .ok 6 ∧
      getReputation [repRecordSample] ("p".data) ("a.b".data) false = .ok 2 ∧
      ∀ sid : List Char, getReputation [repRecordSample] ("q".data) sid false = .ok 0 :=
  ⟨by decide, by decide, fun _ => rfl⟩

/-- Claim C8: starting from an empty store, the first `addRootComment` call
answers child path `"a.a"` with a comment whose reputation field is 0, and a
second call answers `"a.b"`: root children are labelled in append order from
`intToAlpha 0`. -/
theorem claim_C8 (t1 t2 : List Char) (u1 u2 d1 d2 n1 n2 : Nat) :
    (addRootComment ⟨[], []⟩ t1 u1 d1 n1 false).2 =
      .ok ("a.a".data) ⟨u1, "root".data, t1, 0, n1⟩ ∧
    (addRootComment (addRootComment ⟨[], []⟩ t1 u1 d1 n1 false).1
        t2 u2 d2 n2 false).2 =
      .ok ("a.b".data) ⟨u2, "root".data, t2, 0, n2⟩ :=
  ⟨rfl, rfl⟩

/-- The post-update record `incrementReputation` builds for pseudonym `"p"`,
path `"a"`, increment 5, from an empty store. -/
def incSampleDoc : BDoc :=
  .cons ("pseudo".data) (.str "p".data)
    (.cons ("a".data) (.doc (.cons ("count".data) (.num 5) .nil)) .nil)

/-- Claim C7 counterexample: the claim says the operation returns the new
aggregate value of exactly that path's own count field; the code's callback
(source line 161) delivers the whole post-update reputation record instead.
Incrementing `"p"`'s count at `"a"` by 5 from an empty store yields the count
value 5 at that path, yet the delivered value is the full document, not the
number 5. -/
theorem claim_C7_counterexample :
    (incrementReputation [] ("p".data) ("a".data) 5 false).2 = .ok (.doc incSampleDoc) ∧
      numAtPath (fieldPathOf ("a".data)) incSampleDoc = some 5 ∧
      ((incrementReputation [] ("p".data) ("a".data) 5 false).2 = .ok (.num 5)) = False :=
  ⟨by decide, by decide, eq_false (by decide)⟩

/-- Claim C7 (amended): `incrementReputation` performs the `$inc` upsert in a
single `find_and_modify` store call, which adds `inc` to the count field
nested at the path inside the pseudonym's record (creating intermediate
structure as needed), and delivers the full post-update record — in which the
count at exactly that path equals its previous value (0 when absent) plus
`inc` — rather than the bare new count value. -/
theorem claim_C7 (rst : List BDoc) (pseudo sid : List Char) (inc : Int)
    (rst2 : List BDoc) (d2 : BDoc)
    (h : repUpsertInc pseudo (fieldPathOf sid) inc rst = some (rst2, d2)) :
    incrementReputation rst pseudo sid inc false = (rst2, .ok (.doc d2)) ∧
      numAtPath (fieldPathOf sid) d2 =
        some ((numAtPath (fieldPathOf sid) (baseDocOf pseudo rst)).getD 0 + inc) := by
  constructor
  · simp only [incrementReputation, Bool.false_eq_true, if_false, h]
  · have happ := repUpsertInc_applyInc rst pseudo (fieldPathOf sid) inc rst2 d2 h
    cases hfp : fieldPathOf sid with
    | nil => rw [hfp] at happ; simp [applyInc] at happ
    | cons k ks =>
      rw [hfp] at happ
      simp only [applyInc] at happ
      exact incAt_numAtPath (sizeOf (baseDocOf pseudo rst) + 1) _
        (Nat.lt_succ_self _) k ks inc d2 happ

/-- Claim C7 witness: the amended theorem at the concrete run incrementing
pseudonym `"p"`'s count at path `"a"` by 5 from an empty store. -/
theorem claim_C7_witness :
    incrementReputation [] ("p".data) ("a".data) 5 false =
        ([incSampleDoc], .ok (.doc incSampleDoc)) ∧
      numAtPath (fieldPathOf ("a".data)) incSampleDoc =
        some ((numAtPath (fieldPathOf ("a".data))
          (baseDocOf ("p".data) [])).getD 0 + 5) :=
  claim_C7 [] ("p".data) ("a".data) 5 [incSampleDoc] incSampleDoc (by decide)

/-- Only the rollback `remove` is scheduled to raise. -/
def removeFailsOnly : StoreFailures := ⟨false, false, false, true⟩

/-- A run whose `$push` matched no `(_id, subtree_id)` pair and whose `_id`
is new to the collection reduces to ancestry validation of the upserted
single-comment node. -/
theorem addComment_new_node (st : PState) (u ncid now : Nat)
    (psid text pseudo : List Char) (r : Int) (f : StoreFailures)
    (hf1 : f.repFind = false) (hf2 : f.push = false)
    (hrep : getReputationCore st.rep pseudo psid = some r)
    (hnew : ∀ d ∈ st.tree, d.id ≠ u) :
    addCommentToSubtree st u psid text pseudo ncid now f =
      validateNewNode
        ⟨st.tree ++ [⟨u, psid, [⟨ncid, pseudo, text, r, now⟩]⟩], st.rep⟩
        ⟨u, psid, [⟨ncid, pseudo, text, r, now⟩]⟩ u psid
        ⟨ncid, pseudo, text, r, now⟩ f := by
  simp only [addCommentToSubtree, hf1, Bool.false_eq_true, if_false]
  rw [hrep]
  simp only [hf2, Bool.false_eq_true, if_false]
  rw [pushOrUpsert_new u psid ⟨ncid, pseudo, text, r, now⟩ st.tree hnew]
  simp

/-- A run whose `$push` matched an existing node with at least one comment
appends to it and answers immediately: no ancestry validation store call, no
delete, child path `psid + "." + intToAlpha(previous comment count)`. -/
theorem addComment_existing (st : PState) (u ncid now : Nat)
    (psid text pseudo : List Char) (r : Int) (f : StoreFailures) (d0 : TreeDoc)
    (hf1 : f.repFind = false) (hf2 : f.push = false)
    (hrep : getReputationCore st.rep pseudo psid = some r)
    (hfound : findMatchDoc u psid st.tree = some d0)
    (hne : d0.comments ≠ []) :
    ∃ ts2, replaceFirst u psid ⟨ncid, pseudo, text, r, now⟩ st.tree =
        some (ts2, { d0 with comments := d0.comments ++ [⟨ncid, pseudo, text, r, now⟩] }) ∧
      addCommentToSubtree st u psid text pseudo ncid now f =
        (⟨ts2, st.rep⟩,
          .ok (psid ++ '.' :: intToAlpha d0.comments.length)
            ⟨ncid, pseudo, text, r, now⟩,
          [.repFind, .push]) := by
  obtain ⟨ts2, hts2⟩ :=
    findMatchDoc_replaceFirst u psid ⟨ncid, pseudo, text, r, now⟩ st.tree d0 hfound
  refine ⟨ts2, hts2, ?_⟩
  simp only [addCommentToSubtree, hf1, Bool.false_eq_true, if_false]
  rw [hrep]
  simp only [hf2, Bool.false_eq_true, if_false]
  simp only [pushOrUpsert]
  rw [hts2]
  have hlen : ({ d0 with comments := d0.comments ++ [⟨ncid, pseudo, text, r, now⟩] } :
      TreeDoc).comments.length = d0.comments.length + 1 := by
    simp
  have hne1 : ¬(d0.comments.length + 1 = 1) := by
    have : d0.comments.length ≠ 0 := fun hc => hne (List.length_eq_zero.mp hc)
    omega
  simp only [hlen, Nat.add_sub_cancel]
  rw [if_neg hne1]

/-- Validation of a new node whose parent path parses and decodes, against a
store where the grandparent is absent or holds a different `child_id` at the
decoded index, reaches the rollback with `orphaned` or `forgery`. -/
theorem validateNewNode_err (st1 : PState) (d2 : TreeDoc) (u : Nat)
    (psid gpPath label : List Char) (comment : Comment) (f : StoreFailures) (idx : Nat)
    (hsplit : splitLastDot psid = some (gpPath, label))
    (hidx : alphaToInt label = some idx)
    (hvf : f.valFind = false)
    (hval : findBySid gpPath st1.tree = none ∨
      ∃ gp pc, findBySid gpPath st1.tree = some gp ∧
        gp.comments.get? idx = some pc ∧ pc.child_id ≠ u) :
    ∃ e, validateNewNode st1 d2 u psid comment f =
        rollbackStep st1 d2 e f [.repFind, .push, .valFind] ∧
      (e = PErr.orphaned ∨ e = PErr.forgery) := by
  simp only [validateNewNode, hsplit, hidx, hvf, Bool.false_eq_true, if_false]
  rcases hval with hnone | ⟨gp, pc, hgp, hpc, hne⟩
  · simp only [hnone]
    exact ⟨.orphaned, rfl, Or.inl rfl⟩
  · simp only [hgp, hpc, if_neg hne]
    exact ⟨.forgery, rfl, Or.inr rfl⟩

/-- Claim C1 (amended): an `addCommentToSubtree` call in a run where every
store call succeeds, which creates a brand-new node, whose parent path has a
final label that decodes (all characters `'a'`-`'z'`), and whose claimed
parent is bogus — grandparent node absent, or the grandparent's comment at
the decoded index holding a different `childIdentity` than the presented
`parentIdentity` — is answered with a structured validation error (`orphaned`
or `forgery`) and the just-created node is deleted before the error is
returned, leaving the store exactly as before the call.  (As stated the claim
fails: when the final label does not decode, the code crashes instead of
returning a structured error and the created node survives, and a distinct
pre-existing node at the same path also survives the rollback — see the
counterexample.) -/
theorem claim_C1 (st : PState) (u ncid now : Nat)
    (psid text pseudo gpPath label : List Char) (r : Int) (idx : Nat)
    (hrep : getReputationCore st.rep pseudo psid = some r)
    (hnew : ∀ d ∈ st.tree, d.id ≠ u)
    (hsplit : splitLastDot psid = some (gpPath, label))
    (hidx : alphaToInt label = some idx)
    (hval : findBySid gpPath st.tree = none ∨
      ∃ gp pc, findBySid gpPath st.tree = some gp ∧
        gp.comments.get? idx = some pc ∧ pc.child_id ≠ u) :
    ∃ e, addCommentToSubtree st u psid text pseudo ncid now noFailures =
        (st, .err e, [.repFind, .push, .valFind, .remove]) ∧
      (e = PErr.orphaned ∨ e = PErr.forgery) := by
  rw [addComment_new_node st u ncid now psid text pseudo r noFailures rfl rfl hrep hnew]
  have hne : (⟨u, psid, [⟨ncid, pseudo, text, r, now⟩]⟩ : TreeDoc).subtree_id ≠ gpPath :=
    splitLastDot_proper psid gpPath label hsplit
  have htrans :
      findBySid gpPath (st.tree ++ [⟨u, psid, [⟨ncid, pseudo, text, r, now⟩]⟩]) =
        findBySid gpPath st.tree :=
    findBySid_append_ne gpPath _ hne st.tree
  obtain ⟨e, hv, he⟩ :=
    validateNewNode_err
      ⟨st.tree ++ [⟨u, psid, [⟨ncid, pseudo, text, r, now⟩]⟩], st.rep⟩
      ⟨u, psid, [⟨ncid, pseudo, text, r, now⟩]⟩ u psid gpPath label
      ⟨ncid, pseudo, text, r, now⟩ noFailures idx hsplit hidx rfl
      (by rw [htrans]; exact hval)
  refine ⟨e, ?_, he⟩
  rw [hv]
  simp only [rollbackStep, noFailures, Bool.false_eq_true, if_false]
  rw [removeById_append u ⟨u, psid, [⟨ncid, pseudo, text, r, now⟩]⟩ rfl st.tree hnew]
  rfl

/-- Claim C1 counterexample run: empty store, forged parent path `"b.A"`
whose grandparent `"b"` is absent and whose final label holds `'A'`, outside
`'a'`-`'z'`. -/
def c1CexRun : PState × TreeResult × List StoreOp :=
  addCommentToSubtree ⟨[], []⟩ 1 ("b.A".data) ("t".data) ("u".data) 2 50 noFailures

/-- Claim C1 counterexample: the claim's premise holds (a new node is
created, the grandparent node is absent), yet the call delivers no structured
validation error — `alphaToInt` raises an uncaught exception — and a node
remains at the forged path afterwards (no rollback ran). -/
theorem claim_C1_counterexample :
    findBySid ("b".data) ([] : List TreeDoc) = none ∧
      c1CexRun.2.1 = .crash .invalidLabel ∧
      deliveredErr c1CexRun.2.1 = false ∧
      hasNodeAt ("b.A".data) c1CexRun.1.tree = true :=
  ⟨rfl, by decide, by decide, by decide⟩

/-- An existing tree node for the concrete witness runs: path `"a"`, one
comment whose `child_id` is 9. -/
def gpSample : TreeDoc := ⟨5, "a".data, [⟨9, "root".data, "x".data, 0, 1⟩]⟩

/-- Claim C1 witness: a forged append under path `"a.a"` presenting uuid 3
while the grandparent's first comment carries `child_id` 9 is rolled back to
the original store with a `forgery`-class error. -/
theorem claim_C1_witness :
    ∃ e, addCommentToSubtree ⟨[gpSample], []⟩ 3 ("a.a".data) ("t".data) ("u".data)
        2 50 noFailures =
        (⟨[gpSample], []⟩, .err e, [.repFind, .push, .valFind, .remove]) ∧
      (e = PErr.orphaned ∨ e = PErr.forgery) :=
  claim_C1 ⟨[gpSample], []⟩ 3 2 50 ("a.a".data) ("t".data) ("u".data)
    ("a".data) ("a".data) 0 0 (by decide) (by decide) (by decide) (by decide)
    (Or.inr ⟨gpSample, ⟨9, "root".data, "x".data, 0, 1⟩, by decide, by decide, by decide⟩)

/-- Claim C2 (amended): when ancestry validation of a just-created node fails
(grandparent absent or identity mismatch) and the compensating `remove`
itself raises, the operation terminates with that exception uncaught (source
line 315 sits outside any `try`): the callback never fires, so the caller
receives neither the original validation error nor any structured error, and
the just-created node remains in the store.  (As stated the claim fails: the
original validation error is lost rather than surfaced with the rollback
failure attached — see the counterexample.) -/
theorem claim_C2 (st : PState) (u ncid now : Nat)
    (psid text pseudo gpPath label : List Char) (r : Int) (idx : Nat)
    (hrep : getReputationCore st.rep pseudo psid = some r)
    (hnew : ∀ d ∈ st.tree, d.id ≠ u)
    (hsplit : splitLastDot psid = some (gpPath, label))
    (hidx : alphaToInt label = some idx)
    (hval : findBySid gpPath st.tree = none ∨
      ∃ gp pc, findBySid gpPath st.tree = some gp ∧
        gp.comments.get? idx = some pc ∧ pc.child_id ≠ u) :
    addCommentToSubtree st u psid text pseudo ncid now removeFailsOnly =
      (⟨st.tree ++ [⟨u, psid, [⟨ncid, pseudo, text, r, now⟩]⟩], st.rep⟩,
        .crash .removeFailed,
        [.repFind, .push, .valFind, .remove]) := by
  rw [addComment_new_node st u ncid now psid text pseudo r removeFailsOnly rfl rfl hrep hnew]
  have hne : (⟨u, psid, [⟨ncid, pseudo, text, r, now⟩]⟩ : TreeDoc).subtree_id ≠ gpPath :=
    splitLastDot_proper psid gpPath label hsplit
  have htrans :
      findBySid gpPath (st.tree ++ [⟨u, psid, [⟨ncid, pseudo, text, r, now⟩]⟩]) =
        findBySid gpPath st.tree :=
    findBySid_append_ne gpPath _ hne st.tree
  obtain ⟨e, hv, _⟩ :=
    validateNewNode_err
      ⟨st.tree ++ [⟨u, psid, [⟨ncid, pseudo, text, r, now⟩]⟩], st.rep⟩
      ⟨u, psid, [⟨ncid, pseudo, text, r, now⟩]⟩ u psid gpPath label
      ⟨ncid, pseudo, text, r, now⟩ removeFailsOnly idx hsplit hidx rfl
      (by rw [htrans]; exact hval)
  rw [hv]
  simp only [rollbackStep, removeFailsOnly, if_true]
  rfl

/-- Claim C2 counterexample run: empty store, orphaned parent path `"b.a"`,
with the rollback `remove` scheduled to raise. -/
def c2CexRun : PState × TreeResult × List StoreOp :=
  addCommentToSubtree ⟨[], []⟩ 1 ("b.a".data) ("t".data) ("u".data) 2 50 removeFailsOnly

/-- Claim C2 counterexample: validation fails (`"b"` holds no node) and the
compensating delete raises; the claim says the caller still receives the
original validation error, but the run ends in an uncaught exception — no
structured error is delivered at all, and the invalid node survives. -/
theorem claim_C2_counterexample :
    findBySid ("b".data) ([] : List TreeDoc) = none ∧
      c2CexRun.2.1 = .crash .removeFailed ∧
      deliveredErr c2CexRun.2.1 = false ∧
      hasNodeAt ("b.a".data) c2CexRun.1.tree = true :=
  ⟨rfl, by decide, by decide, by decide⟩

/-- Claim C2 witness: the amended theorem at the counterexample's input. -/
theorem claim_C2_witness :
    addCommentToSubtree ⟨[], []⟩ 1 ("b.a".data) ("t".data) ("u".data) 2 50 removeFailsOnly =
      (⟨[⟨1, "b.a".data, [⟨2, "u".data, "t".data, 0, 50⟩]⟩], []⟩,
        .crash .removeFailed,
        [.repFind, .push, .valFind, .remove]) :=
  claim_C2 ⟨[], []⟩ 1 2 50 ("b.a".data) ("t".data) ("u".data) ("b".data) ("a".data)
    0 0 (by decide) (by decide) (by decide) (by decide) (Or.inl rfl)

/-- Claim C6: in a run where every store call succeeds, `addCommentToSubtree`
runs ancestry validation if and only if the atomic append created a
brand-new node.  An append that lands on an existing node (post-append count
above one) is answered as success with child path
`parentPath + "." + intToAlpha(count - 1)`, the store holding exactly the
atomic push's result, and the operation trace `[repFind, push]` — no
validation read, no delete.  An append that created a node (no document
matched the `(_id, subtree_id)` pair and the `_id` was free) either issues
the validation read, or ends in a validation error or an uncaught crash
before reaching it. -/
theorem claim_C6 (st : PState) (u ncid now : Nat) (psid text pseudo : List Char)
    (r : Int) (hrep : getReputationCore st.rep pseudo psid = some r) :
    (∀ d0 : TreeDoc, findMatchDoc u psid st.tree = some d0 → d0.comments ≠ [] →
      ∃ ts2, replaceFirst u psid ⟨ncid, pseudo, text, r, now⟩ st.tree =
          some (ts2, { d0 with comments := d0.comments ++ [⟨ncid, pseudo, text, r, now⟩] }) ∧
        addCommentToSubtree st u psid text pseudo ncid now noFailures =
          (⟨ts2, st.rep⟩,
            .ok (psid ++ '.' :: intToAlpha d0.comments.length) ⟨ncid, pseudo, text, r, now⟩,
            [.repFind, .push])) ∧
    ((∀ d ∈ st.tree, d.id ≠ u) →
      StoreOp.valFind ∈ (addCommentToSubtree st u psid text pseudo ncid now noFailures).2.2 ∨
      deliveredErr (addCommentToSubtree st u psid text pseudo ncid now noFailures).2.1 = true ∨
      isCrash (addCommentToSubtree st u psid text pseudo ncid now noFailures).2.1 = true) := by
  constructor
  · intro d0 hfound hne
    exact addComment_existing st u ncid now psid text pseudo r noFailures d0
      rfl rfl hrep hfound hne
  · intro hnewid
    rw [addComment_new_node st u ncid now psid text pseudo r noFailures rfl rfl hrep hnewid]
    cases hsp : splitLastDot psid with
    | none =>
      refine Or.inr (Or.inl ?_)
      simp [validateNewNode, hsp, rollbackStep, noFailures, deliveredErr]
    | some pq =>
      obtain ⟨gp, lab⟩ := pq
      cases hai : alphaToInt lab with
      | none =>
        refine Or.inr (Or.inr ?_)
        simp [validateNewNode, hsp, hai, isCrash]
      | some idx =>
        refine Or.inl ?_
        simp only [validateNewNode, hsp, hai, noFailures, Bool.false_eq_true, if_false]
        cases hfb : findBySid gp
            (st.tree ++ [⟨u, psid, [⟨ncid, pseudo, text, r, now⟩]⟩]) with
        | none => simp [rollbackStep]
        | some gpd =>
          cases hg : gpd.comments[idx]? with
          | none => simp [hg]
          | some pc =>
            by_cases hcid : pc.child_id = u
            · simp [hg, hcid]
            · simp [hg, hcid, rollbackStep]

/-- An existing tree node at path `"a.a"` holding one comment, for the C6
witness run. -/
def nodeSample : TreeDoc := ⟨9, "a.a".data, [⟨7, "u".data, "y".data, 0, 2⟩]⟩

/-- Claim C6 witness: the theorem at a store holding the root node and an
existing node at `"a.a"`, appended to by its own `_id` 9. -/
theorem claim_C6_witness :
    (∀ d0 : TreeDoc, findMatchDoc 9 ("a.a".data) (⟨[gpSample, nodeSample], []⟩ : PState).tree = some d0 →
      d0.comments ≠ [] →
      ∃ ts2, replaceFirst 9 ("a.a".data) ⟨2, "u".data, "t".data, 0, 50⟩
          (⟨[gpSample, nodeSample], []⟩ : PState).tree =
          some (ts2, { d0 with comments := d0.comments ++ [⟨2, "u".data, "t".data, 0, 50⟩] }) ∧
        addCommentToSubtree ⟨[gpSample, nodeSample], []⟩ 9 ("a.a".data) ("t".data) ("u".data)
            2 50 noFailures =
          (⟨ts2, []⟩,
            .ok (("a.a".data) ++ '.' :: intToAlpha d0.comments.length) ⟨2, "u".data, "t".data, 0, 50⟩,
            [.repFind, .push])) ∧
    ((∀ d ∈ (⟨[gpSample, nodeSample], []⟩ : PState).tree, d.id ≠ 9) →
      StoreOp.valFind ∈
        (addCommentToSubtree ⟨[gpSample, nodeSample], []⟩ 9 ("a.a".data) ("t".data) ("u".data)
          2 50 noFailures).2.2 ∨
      deliveredErr (addCommentToSubtree ⟨[gpSample, nodeSample], []⟩ 9 ("a.a".data) ("t".data)
        ("u".data) 2 50 noFailures).2.1 = true ∨
      isCrash (addCommentToSubtree ⟨[gpSample, nodeSample], []⟩ 9 ("a.a".data) ("t".data)
        ("u".data) 2 50 noFailures).2.1 = true) :=
  claim_C6 ⟨[gpSample, nodeSample], []⟩ 9 2 50 ("a.a".data) ("t".data) ("u".data) 0 (by decide)

/-- Claim C9: during ancestry validation of a just-created node (all store
calls succeeding), a final label holding any character outside `'a'`-`'z'`
makes `alphaToInt` raise a plain `Exception` that the `except ValueError`
handler does not catch, and a decoded index at or beyond the grandparent's
comment count makes the unguarded `comments[idx]` access raise: in both
cases the operation crashes — no structured error reaches the callback, no
rollback delete runs, and the just-created node stays in the store. -/
theorem claim_C9 (st : PState) (u ncid now : Nat)
    (psid text pseudo gpPath label : List Char) (r : Int)
    (hrep : getReputationCore st.rep pseudo psid = some r)
    (hnew : ∀ d ∈ st.tree, d.id ≠ u)
    (hsplit : splitLastDot psid = some (gpPath, label)) :
    ((∃ c ∈ label, c < 'a' ∨ 'z' < c) →
      addCommentToSubtree st u psid text pseudo ncid now noFailures =
        (⟨st.tree ++ [⟨u, psid, [⟨ncid, pseudo, text, r, now⟩]⟩], st.rep⟩,
          .crash .invalidLabel, [.repFind, .push])) ∧
    (∀ (idx : Nat) (gp : TreeDoc), alphaToInt label = some idx →
      findBySid gpPath st.tree = some gp → gp.comments.length ≤ idx →
      addCommentToSubtree st u psid text pseudo ncid now noFailures =
        (⟨st.tree ++ [⟨u, psid, [⟨ncid, pseudo, text, r, now⟩]⟩], st.rep⟩,
          .crash .indexOutOfRange, [.repFind, .push, .valFind])) := by
  rw [addComment_new_node st u ncid now psid text pseudo r noFailures rfl rfl hrep hnew]
  have hne : (⟨u, psid, [⟨ncid, pseudo, text, r, now⟩]⟩ : TreeDoc).subtree_id ≠ gpPath :=
    splitLastDot_proper psid gpPath label hsplit
  have htrans :
      findBySid gpPath (st.tree ++ [⟨u, psid, [⟨ncid, pseudo, text, r, now⟩]⟩]) =
        findBySid gpPath st.tree :=
    findBySid_append_ne gpPath _ hne st.tree
  constructor
  · intro hbad
    have hai : alphaToInt label = none := alphaToIntGo_bad label 0 hbad
    simp only [validateNewNode, hsplit, hai]
  · intro idx gp hai hgp hlen
    have hg2 : gp.comments.get? idx = none := List.get?_eq_none.mpr hlen
    simp only [validateNewNode, hsplit, hai, noFailures, Bool.false_eq_true, if_false]
    rw [htrans, hgp]
    simp only [hg2]

/-- Claim C9 witness: the theorem at a store holding only the root node
`"a"` (one comment), with parent path `"a.z"`; the decoded index 25 is out of
range for the single-comment grandparent. -/
theorem claim_C9_witness :
    ((∃ c ∈ ("z".data : List Char), c < 'a' ∨ 'z' < c) →
      addCommentToSubtree ⟨[gpSample], []⟩ 3 ("a.z".data) ("t".data) ("u".data) 2 50 noFailures =
        (⟨[gpSample] ++ [⟨3, "a.z".data, [⟨2, "u".data, "t".data, 0, 50⟩]⟩], []⟩,
          .crash .invalidLabel, [.repFind, .push])) ∧
    (∀ (idx : Nat) (gp : TreeDoc), alphaToInt ("z".data) = some idx →
      findBySid ("a".data) [gpSample] = some gp → gp.comments.length ≤ idx →
      addCommentToSubtree ⟨[gpSample], []⟩ 3 ("a.z".data) ("t".data) ("u".data) 2 50 noFailures =
        (⟨[gpSample] ++ [⟨3, "a.z".data, [⟨2, "u".data, "t".data, 0, 50⟩]⟩], []⟩,
          .crash .indexOutOfRange, [.repFind, .push, .valFind])) :=
  claim_C9 ⟨[gpSample], []⟩ 3 2 50 ("a.z".data) ("t".data) ("u".data) ("a".data) ("z".data)
    0 (by decide) (by decide) (by decide)
